import Mathlib

/-!
Verification of the crawl-orchestration and data-quality engine of the
ai-google-map-scrapper repository: rate limiter, deduplicator, quality
scorer, retry policy, proxy pool and the persistence gate of the crawl
loop.  All definitions are shallow embeddings of the Python source
(`src/utils/deduplicator.py`, `src/database/models.py`,
`src/scraper/rate_limiter.py`, `src/scraper/error_handler.py`,
`src/scraper/proxy_manager.py`, `src/scraper/google_maps_scraper_v2.py`).
Optional (nullable) columns become `Option`; Python truthiness of a
string value (`None` and `""` are falsy) is `strTruthy`; wall-clock time
is an integer number of seconds.
-/

namespace Scraper

/-- Python truthiness of an optional string: `None` and `""` are falsy. -/
def strTruthy : Option String → Bool
  | none => false
  | some s => !s.isEmpty

/-- Record shape of `database.models.BusinessLead` restricted to the columns the
core logic reads (ids are integers; nullable columns are `Option`). -/
structure BusinessLead where
  id : Int
  business_name : String
  full_address : Option String := none
  city : Option String := none
  state : Option String := none
  pin_code : Option String := none
  phone : Option String := none
  website : Option String := none
  category : Option String := none
  email : Option String := none
  place_id : Option String := none
  latitude : Option Rat := none
  longitude : Option Rat := none
  social_facebook : Option String := none
  social_instagram : Option String := none
  social_twitter : Option String := none
  social_linkedin : Option String := none
  social_youtube : Option String := none
  data_quality_score : Int := 0
deriving DecidableEq, Repr

/-- The ten scored columns of `BusinessLead.calculate_quality_score`, as the
list of their Python truthiness values, in source order. -/
def qualityFields (l : BusinessLead) : List Bool :=
  [!l.business_name.isEmpty,
   strTruthy l.full_address,
   strTruthy l.city,
   strTruthy l.state,
   strTruthy l.pin_code,
   strTruthy l.phone,
   strTruthy l.website,
   strTruthy l.category,
   strTruthy l.email,
   strTruthy l.place_id]

/-- `BusinessLead.calculate_quality_score`: the Python source computes
`int((filled_fields / total_fields) * 100)` in floating point with
`total_fields = 10`; for every reachable `filled_fields ∈ {0,…,10}` that float
expression evaluates to the exact integer `filled_fields * 10`, which is the
value embedded here as exact natural division. -/
def calculate_quality_score (l : BusinessLead) : Nat :=
  let filled_fields := (qualityFields l).count true
  let total_fields := (qualityFields l).length
  filled_fields * 100 / total_fields

/-- One field of `AdvancedDeduplicator._merge_leads`: the duplicate's value is
copied iff the primary's value is falsy and the duplicate's is truthy. -/
def mergeField (primary_value duplicate_value : Option String) : Option String :=
  if !strTruthy primary_value && strTruthy duplicate_value then duplicate_value
  else primary_value

/-- `AdvancedDeduplicator._merge_leads`, as the updated primary record: the
nine `fields_to_merge` are filled field by field, then the quality score is
recomputed (the duplicate is deleted from the session, which does not affect
the primary's fields). -/
def mergeLeads (primary duplicate : BusinessLead) : BusinessLead :=
  let merged :=
    { primary with
      phone := mergeField primary.phone duplicate.phone
      website := mergeField primary.website duplicate.website
      email := mergeField primary.email duplicate.email
      category := mergeField primary.category duplicate.category
      social_facebook := mergeField primary.social_facebook duplicate.social_facebook
      social_instagram := mergeField primary.social_instagram duplicate.social_instagram
      social_twitter := mergeField primary.social_twitter duplicate.social_twitter
      social_linkedin := mergeField primary.social_linkedin duplicate.social_linkedin
      social_youtube := mergeField primary.social_youtube duplicate.social_youtube }
  { merged with data_quality_score := (calculate_quality_score merged : Int) }

/-- Characters kept by `re.sub(r'[^\d+]', '', phone)`: digits and `+`. -/
def keepDigitPlus (c : Char) : Bool := c.isDigit || c == '+'

/-- Country-code step of `normalize_phone` (lines 33-38): prepend `+91` to a
bare 10-digit number, or `+` to an 11-digit number starting `91`. -/
def addCountryCode (cs : List Char) : List Char :=
  if cs.head? ≠ some '+' then
    if cs.length = 10 then '+' :: '9' :: '1' :: cs
    else if cs.length = 11 ∧ cs.take 2 = ['9', '1'] then '+' :: cs
    else cs
  else cs

/-- Character-level core of `AdvancedDeduplicator.normalize_phone`: strip
non-digit characters except `+`, strip leading zeros, then add the country
code. -/
def normalizeChars (cs0 : List Char) : List Char :=
  addCountryCode ((cs0.filter keepDigitPlus).dropWhile (fun c => c == '0'))

/-- `AdvancedDeduplicator.normalize_phone`: falsy input (`None` or the empty
string) gives `None`; otherwise the character-level normalization above. -/
def normalize_phone (phone : Option String) : Option String :=
  match phone with
  | none => none
  | some p =>
    if p.data.isEmpty then none
    else some (String.mk (normalizeChars p.data))

/-- Python `s.lower().strip()` as applied by the similarity helpers. -/
def pyLowerStrip (s : String) : String :=
  String.mk ((((s.data.map Char.toLower).dropWhile Char.isWhitespace).reverse.dropWhile
    Char.isWhitespace).reverse)

/-- Match metadata dictionary attached to each duplicate candidate; the three
similarity keys are present only on tier-3 matches. -/
structure MatchInfo where
  match_type : String
  confidence : Rat
  name_similarity : Option Rat := none
  address_similarity : Option Rat := none
  distance_meters : Option Rat := none
deriving DecidableEq, Repr

/-- `AdvancedDeduplicator`, parametrized over its two external collaborators:
`fuzzRatio` models `rapidfuzz.fuzz.token_set_ratio` and `haversine` models the
coordinate arithmetic of `calculate_distance` (both are library/float code
outside the repository; every claim below either holds for all choices or
instantiates them with a spec-modelled function). -/
structure AdvancedDeduplicator where
  fuzzRatio : String → String → Rat
  haversine : Rat → Rat → Rat → Rat → Rat
  name_threshold : Rat := 85
  address_threshold : Rat := 80
  proximity_threshold : Rat := 50

/-- `AdvancedDeduplicator.calculate_name_similarity`: 0 on falsy input, else
the token-set ratio of the lowercased, stripped names. -/
def calculate_name_similarity (D : AdvancedDeduplicator) (name1 name2 : String) : Rat :=
  if name1.isEmpty || name2.isEmpty then 0
  else D.fuzzRatio (pyLowerStrip name1) (pyLowerStrip name2)

/-- `AdvancedDeduplicator.calculate_address_similarity`: 0 when either address
is falsy, else the token-set ratio of the lowercased, stripped addresses. -/
def calculate_address_similarity (D : AdvancedDeduplicator) (addr1 addr2 : Option String) : Rat :=
  match addr1, addr2 with
  | some a1, some a2 =>
    if a1.isEmpty || a2.isEmpty then 0
    else D.fuzzRatio (pyLowerStrip a1) (pyLowerStrip a2)
  | _, _ => 0

/-- `AdvancedDeduplicator.calculate_distance`: `None` when any coordinate is
missing, else the Haversine distance in meters. -/
def calculate_distance (D : AdvancedDeduplicator)
    (lat1 lon1 lat2 lon2 : Option Rat) : Option Rat :=
  match lat1, lon1, lat2, lon2 with
  | some a, some b, some c, some d => some (D.haversine a b c d)
  | _, _, _, _ => none

/-- Tier-3 decision of `find_duplicates` for one candidate (lines 154-208 of
`deduplicator.py`); `none` when the candidate is not judged a duplicate.
Python's `if distance and distance <= threshold` is falsy for `None` and for a
distance of exactly `0.0`. -/
def fuzzyCandidateMatch (D : AdvancedDeduplicator) (lead candidate : BusinessLead) :
    Option (BusinessLead × MatchInfo) :=
  let name_sim := calculate_name_similarity D lead.business_name candidate.business_name
  let addr_sim := calculate_address_similarity D lead.full_address candidate.full_address
  let distance := calculate_distance D lead.latitude lead.longitude
    candidate.latitude candidate.longitude
  let distTruthyClose : Bool :=
    match distance with
    | some d => d ≠ 0 && d ≤ D.proximity_threshold
    | none => false
  if name_sim ≥ D.name_threshold then
    let (confidence, match_type) :=
      if addr_sim ≥ D.address_threshold then ((name_sim + addr_sim) / 2, "fuzzy_name_address")
      else (name_sim, "fuzzy_name")
    let (confidence, match_type) :=
      if distTruthyClose then (min (confidence + 10) 100, match_type ++ "_proximity")
      else (confidence, match_type)
    some (candidate,
      { match_type := match_type, confidence := confidence,
        name_similarity := some name_sim, address_similarity := some addr_sim,
        distance_meters := distance })
  else if distTruthyClose && name_sim ≥ 70 then
    some (candidate,
      { match_type := "proximity_similar_name", confidence := 85,
        name_similarity := some name_sim, address_similarity := some addr_sim,
        distance_meters := distance })
  else none

/-- Tier-2 phone matches of `find_duplicates` (lines 122-136): corpus records
with a non-null phone and a different id whose normalized phone equals the
lead's; skipped entirely when the lead's phone or its normalization is falsy. -/
def phoneMatches (lead : BusinessLead) (corpus : List BusinessLead) :
    List (BusinessLead × MatchInfo) :=
  if strTruthy lead.phone then
    let normalized_phone := normalize_phone lead.phone
    if strTruthy normalized_phone then
      ((corpus.filter fun m => m.phone.isSome && m.id ≠ lead.id).filter
          fun m => normalize_phone m.phone == normalized_phone).map
        fun m => (m, { match_type := "phone_number", confidence := 95 })
    else []
  else []

/-- Tier-3 fuzzy matches of `find_duplicates` (lines 138-208): candidates are
restricted to the lead's city, or failing that its pin code; with neither,
tier 3 is skipped. -/
def fuzzyMatches (D : AdvancedDeduplicator) (lead : BusinessLead)
    (corpus : List BusinessLead) : List (BusinessLead × MatchInfo) :=
  let base := corpus.filter fun r => r.id ≠ lead.id
  if strTruthy lead.city then
    (base.filter fun r => r.city == lead.city).filterMap (fuzzyCandidateMatch D lead)
  else if strTruthy lead.pin_code then
    (base.filter fun r => r.pin_code == lead.pin_code).filterMap (fuzzyCandidateMatch D lead)
  else []

/-- `AdvancedDeduplicator.find_duplicates` against a corpus of persisted
records in query order.  Tier 1 (exact `place_id`) returns its single match
immediately; otherwise the tier-2 phone matches are accumulated and tier-3
fuzzy matching appends to them (the code only returns early inside tier 1 and
when both city and pin code are absent). -/
def find_duplicates (D : AdvancedDeduplicator) (lead : BusinessLead)
    (corpus : List BusinessLead) : List (BusinessLead × MatchInfo) :=
  if strTruthy lead.place_id then
    match corpus.find? (fun r => r.place_id == lead.place_id && r.id ≠ lead.id) with
    | some exact_match =>
      [(exact_match, { match_type := "exact_place_id", confidence := 100 })]
    | none => phoneMatches lead corpus ++ fuzzyMatches D lead corpus
  else phoneMatches lead corpus ++ fuzzyMatches D lead corpus

/-- Configuration of `scraper.rate_limiter.RateLimiter` relevant to the
request-budget caps. -/
structure RateLimiter where
  max_requests_per_hour : Nat
  max_requests_per_minute : Nat

/-- The eviction loop of `wait_if_needed` (lines 50-52): pop timestamps from
the front of the history while they are older than the cutoff. -/
def evictOld (cutoff : Int) : List Int → List Int
  | [] => []
  | x :: xs => if x < cutoff then evictOld cutoff xs else x :: xs

/-- Result of one `wait_if_needed` call: the updated request history and the
timestamp recorded for this request. -/
structure WaitResult where
  requests_history : List Int
  recordedAt : Int

/-- Hourly branch of `wait_if_needed` (lines 54-63): when the evicted history
still reaches the hourly cap, sleep until the oldest timestamp plus one hour
(when that lies in the future); returns the clock after the branch.  The `[]`
case models the `IndexError` Python would raise with a cap of 0 and is
unreachable once the cap is at least 1. -/
def hourlyWaitTarget (cfg : RateLimiter) (h1 : List Int) (t : Int) : Int :=
  if h1.length ≥ cfg.max_requests_per_hour then
    match h1 with
    | [] => t
    | oldest_request :: _ =>
      if oldest_request + 3600 - t > 0 then oldest_request + 3600 else t
  else t

/-- Minute branch of `wait_if_needed` (lines 65-73): when at least the
per-minute cap of timestamps lies within the last 60 seconds, sleep a fixed
60 seconds; returns the clock after the branch. -/
def minuteWaitTarget (cfg : RateLimiter) (h1 : List Int) (t1 : Int) : Int :=
  if (h1.filter fun x => decide (x > t1 - 60)).length ≥ cfg.max_requests_per_minute
  then t1 + 60 else t1

/-- `RateLimiter.wait_if_needed` on an integer clock (seconds): `t` is the
wall-clock time on entry (after any cooldown sleep — cooldown only advances the
clock before the logic below runs) and `extraDelay ≥ 0` is the time added by
the randomized base-delay sleep at the end.  The body evicts history older
than one hour, applies the hourly and per-minute branches above, and records
the resulting time. -/
def wait_if_needed (cfg : RateLimiter) (requests_history : List Int)
    (t extraDelay : Int) : WaitResult :=
  let h1 := evictOld (t - 3600) requests_history
  let t1 := hourlyWaitTarget cfg h1 t
  let t2 := minuteWaitTarget cfg h1 t1
  let t3 := t2 + extraDelay
  ⟨h1 ++ [t3], t3⟩

/-- State of a sequence of `wait_if_needed` calls: the live history deque, the
full log of every recorded timestamp, and the current clock. -/
structure RLRun where
  requests_history : List Int
  log : List Int
  now : Int

/-- One call in a run: the clock advances by `gap` before the call (time spent
scraping between requests) and the call itself adds `extra` base delay. -/
def rlStep (cfg : RateLimiter) (s : RLRun) (p : Int × Int) : RLRun :=
  let t := s.now + p.1
  let r := wait_if_needed cfg s.requests_history t p.2
  ⟨r.requests_history, s.log ++ [r.recordedAt], r.recordedAt⟩

/-- A whole run of `wait_if_needed` calls starting at clock `t0` with an empty
history. -/
def rlRun (cfg : RateLimiter) (t0 : Int) (steps : List (Int × Int)) : RLRun :=
  steps.foldl (rlStep cfg) ⟨[], [], t0⟩

/-- Number of recorded timestamps inside the sliding window `(w, w + len]`. -/
def windowCount (log : List Int) (w len : Int) : Nat :=
  (log.filter fun x => decide (w < x) && decide (x ≤ w + len)).length

/-- Invariant carried along a run of `wait_if_needed` calls: the log of
recorded timestamps is sorted, bounded by the current clock, the live deque is
the suffix of the log surviving the evictions so far, and no sliding hour
(resp. minute) window of the log exceeds the hourly (resp. per-minute) cap. -/
structure RLInv (cfg : RateLimiter) (s : RLRun) : Prop where
  sorted : s.log.Pairwise (· ≤ ·)
  le_now : ∀ x ∈ s.log, x ≤ s.now
  deq : ∃ c, c + 3600 ≤ s.now + 1 ∧
    s.requests_history = s.log.filter (fun x => decide (c ≤ x))
  hourly : ∀ w, windowCount s.log w 3600 ≤ cfg.max_requests_per_hour
  minutely : ∀ w, windowCount s.log w 60 ≤ cfg.max_requests_per_minute

/-- Outcome of one invocation of the operation passed to `retry_async`:
success, an exception of class `FatalError`, or any other exception. -/
inductive AttemptResult (α ε : Type) where
  | ok (v : α)
  | fatal (e : ε)
  | nonfatal (e : ε)

/-- Observable trace of a `retry_async` run: the returned value or raised
error, how many times the operation was invoked, and the sleeps performed
before each retry. -/
structure RetryTrace (α ε : Type) where
  result : Except ε α
  invocations : Nat
  delays : List Rat

/-- Loop body of `retry_async` (`for attempt in range(max_retries + 1)`),
with `remaining` retries left after the current attempt.  A `FatalError` is
re-raised at once; any other exception is remembered and, when retries remain,
the backoff delay is computed, the `on_error` callback is invoked (its outcome
`_cb` is discarded — the source wraps it in `try/except` and only logs a
failure), the delay is slept and the loop continues; with no retries left the
last exception is raised. -/
def retryGo {α ε : Type} (op : Nat → AttemptResult α ε) (on_error : ε → Nat → Bool)
    (base_delay : Rat) (exponential_backoff : Bool) :
    Nat → Nat → Nat → List Rat → RetryTrace α ε
  | 0, attempt, invocs, delays =>
    match op attempt with
    | .ok v => ⟨.ok v, invocs + 1, delays⟩
    | .fatal e => ⟨.error e, invocs + 1, delays⟩
    | .nonfatal e => ⟨.error e, invocs + 1, delays⟩
  | r + 1, attempt, invocs, delays =>
    match op attempt with
    | .ok v => ⟨.ok v, invocs + 1, delays⟩
    | .fatal e => ⟨.error e, invocs + 1, delays⟩
    | .nonfatal e =>
      let delay := if exponential_backoff then base_delay * 2 ^ attempt else base_delay
      let _cb := on_error e attempt
      retryGo op on_error base_delay exponential_backoff r (attempt + 1) (invocs + 1)
        (delays ++ [delay])

/-- `scraper.error_handler.retry_async`: run the operation with up to
`max_retries` additional invocations. -/
def retry_async {α ε : Type} (op : Nat → AttemptResult α ε) (on_error : ε → Nat → Bool)
    (max_retries : Nat) (base_delay : Rat) (exponential_backoff : Bool) : RetryTrace α ε :=
  retryGo op on_error base_delay exponential_backoff max_retries 0 0 []

/-- One proxy dictionary of `scraper.proxy_manager`. -/
structure Proxy where
  url : String
  ip : String
  source : String
deriving DecidableEq, Repr

/-- Mutable state of `ProxyManager` relevant to rotation. -/
structure ProxyManager where
  working_proxies : List Proxy
  failed_proxies : List String
  current_proxy_index : Nat
deriving DecidableEq, Repr

/-- `ProxyManager.get_next_proxy`: `none` models the `IndexError` Python
raises when `current_proxy_index` is out of range for the (possibly shrunk)
working list; otherwise the proxy at the current index is returned and the
index advances modulo the list length. -/
def get_next_proxy (s : ProxyManager) : Option (Option Proxy × ProxyManager) :=
  if s.working_proxies.isEmpty then some (none, s)
  else
    match s.working_proxies.get? s.current_proxy_index with
    | none => none
    | some proxy =>
      some (some proxy,
        { s with current_proxy_index :=
            (s.current_proxy_index + 1) % s.working_proxies.length })

/-- `ProxyManager.mark_proxy_failed`: record the url in the failed set and
remove the first occurrence of the proxy from the working list (guarded by a
membership test in the source). -/
def mark_proxy_failed (s : ProxyManager) (proxy : Proxy) : ProxyManager :=
  { s with
    failed_proxies :=
      if s.failed_proxies.contains proxy.url then s.failed_proxies
      else s.failed_proxies ++ [proxy.url]
    working_proxies := s.working_proxies.erase proxy }

/-- Fields of the extracted `business_data` dictionary that the persistence
gate and the dedup-relevant columns read. -/
structure ExtractedData where
  business_name : String
  place_id : Option String := none
  phone : Option String := none
  full_address : Option String := none
  city : Option String := none
deriving DecidableEq, Repr

/-- `BusinessLead(**business_data)` followed by `calculate_quality_score()`
with an autoincremented id. -/
def leadOfData (nextId : Int) (d : ExtractedData) : BusinessLead :=
  let l : BusinessLead :=
    { id := nextId, business_name := d.business_name, place_id := d.place_id,
      phone := d.phone, full_address := d.full_address, city := d.city }
  { l with data_quality_score := (calculate_quality_score l : Int) }

/-- `EnhancedGoogleMapsScraper._save_to_database` over a list-valued store:
when the extracted data has a truthy `place_id` and some stored record has the
same `place_id`, the record is reported as a duplicate and not persisted;
otherwise it is scored and appended. -/
def save_to_database (db : List BusinessLead) (business_data : ExtractedData) :
    Bool × List BusinessLead :=
  if strTruthy business_data.place_id &&
      (db.find? fun r => r.place_id == business_data.place_id).isSome then
    (false, db)
  else
    (true, db ++ [leadOfData ((db.length : Int) + 1) business_data])

/-- Persistence core of the loop in `_scrape_listings_enhanced` (lines
188-246): each listing either fails extraction (`none`, incrementing the
consecutive-failure counter) or yields data that is saved through
`save_to_database`; `results_scraped` counts only saved records, a successful
save resets the failure counter, and the loop stops once the counter reaches
`max_consecutive_failures`.  Rate-limiter sleeps and the retry wrapper only
affect timing and are elided here. -/
def scrapeLoop (max_consecutive_failures : Nat) :
    List (Option ExtractedData) → List BusinessLead → Nat → Nat →
    List BusinessLead × Nat
  | [], db, results_scraped, _ => (db, results_scraped)
  | item :: rest, db, results_scraped, consecutive_failures =>
    match item with
    | some business_data =>
      let (saved, db') := save_to_database db business_data
      let results' := if saved then results_scraped + 1 else results_scraped
      let cf' := if saved then 0 else consecutive_failures
      if cf' ≥ max_consecutive_failures then (db', results')
      else scrapeLoop max_consecutive_failures rest db' results' cf'
    | none =>
      let cf' := consecutive_failures + 1
      if cf' ≥ max_consecutive_failures then (db, results_scraped)
      else scrapeLoop max_consecutive_failures rest db results_scraped cf'

/-- Whitespace tokenizer used by the token-set similarity model below. -/
def splitTokensAux : List Char → List Char → List (List Char)
  | [], acc => if acc.isEmpty then [] else [acc.reverse]
  | c :: cs, acc =>
    if c == ' ' then
      if acc.isEmpty then splitTokensAux cs []
      else acc.reverse :: splitTokensAux cs []
    else splitTokensAux cs (c :: acc)

/-- Tokens of a string, split on spaces. -/
def splitTokens (s : String) : List (List Char) := splitTokensAux s.data []

/-- Modelled from the spec: the external `rapidfuzz.fuzz.token_set_ratio`
collaborator (not part of this repository) is an order-insensitive token-set
string similarity; this model scores 100 when the two token sets coincide —
in particular on identical strings, which is all the concrete instantiations
below rely on — and 0 otherwise. -/
def tokenSetRatioModel (a b : String) : Rat :=
  let ta := splitTokens a
  let tb := splitTokens b
  if ta.all (fun x => tb.contains x) && tb.all (fun x => ta.contains x) then 100 else 0

/-- Concrete deduplicator used by the closed instantiations: the token-set
model above and a placeholder Haversine collaborator (no instantiation below
supplies coordinates, so the distance function is never reached). -/
def dedupModel : AdvancedDeduplicator :=
  { fuzzRatio := tokenSetRatioModel, haversine := fun _ _ _ _ => 0 }

/-! General list helpers shared by the claim proofs. -/

theorem length_filter_le_filter {α : Type} (p q : α → Bool) (l : List α)
    (h : ∀ x ∈ l, p x = true → q x = true) :
    (l.filter p).length ≤ (l.filter q).length := by
  induction l with
  | nil => simp
  | cons x xs ih =>
    have hxs : ∀ y ∈ xs, p y = true → q y = true := fun y hy => h y (by simp [hy])
    by_cases hp : p x = true
    · have hq : q x = true := h x (by simp) hp
      simp only [List.filter_cons, hp, hq, if_true, List.length_cons]
      exact Nat.succ_le_succ (ih hxs)
    · simp only [List.filter_cons, hp, if_false]
      by_cases hq : q x = true
      · simp only [hq, if_true, List.length_cons]
        exact Nat.le_succ_of_le (ih hxs)
      · simp only [hq, if_false]
        exact ih hxs

theorem find?_eq_of_filter_eq_singleton {α : Type} {p : α → Bool} {l : List α} {m : α}
    (h : l.filter p = [m]) : l.find? p = some m := by
  induction l with
  | nil => simp at h
  | cons x xs ih =>
    by_cases hp : p x = true
    · rw [List.filter_cons_of_pos hp] at h
      have hx : x = m := (List.cons_eq_cons.mp h).1
      rw [List.find?_cons_of_pos xs hp, hx]
    · rw [List.filter_cons_of_neg (by simpa using hp)] at h
      rw [List.find?_cons_of_neg xs hp]
      exact ih h

theorem mem_of_mem_dropWhile {α : Type} {p : α → Bool} {x : α} :
    ∀ {l : List α}, x ∈ l.dropWhile p → x ∈ l := by
  intro l
  induction l with
  | nil => simp [List.dropWhile]
  | cons a as ih =>
    intro hx
    rw [List.dropWhile_cons] at hx
    by_cases hp : p a = true
    · simp only [hp, if_true] at hx
      exact List.mem_cons_of_mem _ (ih hx)
    · simp only [hp, if_false] at hx
      exact hx

theorem head_false_of_dropWhile_eq_cons {α : Type} {p : α → Bool} {x : α} {xs : List α} :
    ∀ {l : List α}, l.dropWhile p = x :: xs → p x = false := by
  intro l
  induction l with
  | nil => simp [List.dropWhile]
  | cons a as ih =>
    intro h
    rw [List.dropWhile_cons] at h
    by_cases hp : p a = true
    · simp only [hp, if_true] at h
      exact ih h
    · simp only [hp, if_false] at h
      have : a = x := (List.cons_eq_cons.mp h).1
      simpa [← this] using hp

/-! Structural facts about the deduplication tiers. -/

theorem fuzzyCandidateMatch_fst {D : AdvancedDeduplicator} {lead c m : BusinessLead}
    {i : MatchInfo} (h : fuzzyCandidateMatch D lead c = some (m, i)) : m = c := by
  simp only [fuzzyCandidateMatch] at h
  split_ifs at h <;> simp_all

theorem mem_phoneMatches_props {lead : BusinessLead} {corpus : List BusinessLead}
    {m : BusinessLead} {info : MatchInfo} (h : (m, info) ∈ phoneMatches lead corpus) :
    m.id ≠ lead.id ∧ info = { match_type := "phone_number", confidence := 95 } := by
  simp only [phoneMatches] at h
  split_ifs at h with h1 h2
  · obtain ⟨a, ha, heq⟩ := List.mem_map.mp h
    obtain ⟨hmem2, _⟩ := List.mem_filter.mp ha
    obtain ⟨_, hpred⟩ := List.mem_filter.mp hmem2
    cases heq
    have := (Bool.and_eq_true _ _).mp hpred
    exact ⟨of_decide_eq_true this.2, rfl⟩
  · simp at h
  · simp at h

theorem mem_fuzzyMatches_ne {D : AdvancedDeduplicator} {lead : BusinessLead}
    {corpus : List BusinessLead} {m : BusinessLead} {info : MatchInfo}
    (h : (m, info) ∈ fuzzyMatches D lead corpus) : m.id ≠ lead.id := by
  unfold fuzzyMatches at h
  split_ifs at h with h1 h2
  · obtain ⟨c, hc, hcm⟩ := List.mem_filterMap.mp h
    cases fuzzyCandidateMatch_fst hcm
    obtain ⟨hbase, _⟩ := List.mem_filter.mp hc
    exact of_decide_eq_true (List.mem_filter.mp hbase).2
  · obtain ⟨c, hc, hcm⟩ := List.mem_filterMap.mp h
    cases fuzzyCandidateMatch_fst hcm
    obtain ⟨hbase, _⟩ := List.mem_filter.mp hc
    exact of_decide_eq_true (List.mem_filter.mp hbase).2
  · simp at h

/-- C6: the quality score is the rounding of `100 × filled / 10` over the ten
scored fields, it always lies in `[0, 100]` (the lower bound is inherent in
the `Nat`-valued embedding), a record with all ten scored fields populated
scores exactly 100, and a record with none populated scores exactly 0. -/
theorem quality_score_bounds (l : BusinessLead) :
    (calculate_quality_score l : Int) =
      round ((100 * ((qualityFields l).count true : Rat)) / 10) ∧
    calculate_quality_score l ≤ 100 ∧
    ((qualityFields l).all (fun b => b) = true → calculate_quality_score l = 100) ∧
    ((qualityFields l).all (fun b => !b) = true → calculate_quality_score l = 0) := by
  have hlen : (qualityFields l).length = 10 := by simp [qualityFields]
  have hcount : (qualityFields l).count true ≤ 10 := by
    simpa [hlen] using List.count_le_length true (qualityFields l)
  have hscore : calculate_quality_score l = (qualityFields l).count true * 100 / 10 := by
    simp [calculate_quality_score, hlen]
  refine ⟨?_, ?_, ?_, ?_⟩
  · set k := (qualityFields l).count true with hk
    have hdiv : k * 100 / 10 = 10 * k := by omega
    have h10 : (100 * (k : Rat)) / 10 = ((10 * k : Nat) : Rat) := by push_cast; ring
    rw [hscore, hdiv, h10, round_natCast]
  · rw [hscore]; omega
  · intro hall
    have hten : (qualityFields l).count true = 10 := by
      rw [← hlen, List.count_eq_length]
      intro b hb
      exact ((List.all_eq_true.mp hall) b hb).symm
    rw [hscore, hten]
  · intro hall
    have hzero : (qualityFields l).count true = 0 := by
      rw [List.count_eq_zero]
      intro hmem
      simpa using (List.all_eq_true.mp hall) true hmem
    rw [hscore, hzero]

/-- Closed instance of `quality_score_bounds`: a fully populated record scores
100 and a record with no populated scored field scores 0. -/
theorem quality_score_bounds_witness :
    calculate_quality_score
      { id := 1, business_name := "Acme", full_address := some "1 Main St",
        city := some "Pune", state := some "MH", pin_code := some "411001",
        phone := some "123", website := some "http://a", category := some "bakery",
        email := some "a@b.c", place_id := some "PID" } = 100 ∧
    calculate_quality_score { id := 2, business_name := "" } = 0 :=
  ⟨(quality_score_bounds _).2.2.1 (by decide), (quality_score_bounds _).2.2.2 (by decide)⟩

/-- C10: every match returned by `find_duplicates` refers to a record with a
database id different from the input lead's — all three tiers filter the
lead's own id out of the candidate query, so a record is never reported as
its own duplicate. -/
theorem find_duplicates_never_self (D : AdvancedDeduplicator) (lead : BusinessLead)
    (corpus : List BusinessLead) (m : BusinessLead) (info : MatchInfo)
    (h : (m, info) ∈ find_duplicates D lead corpus) : m.id ≠ lead.id := by
  unfold find_duplicates at h
  by_cases hp : strTruthy lead.place_id = true
  · rw [if_pos hp] at h
    cases hfind : corpus.find? (fun r => r.place_id == lead.place_id && r.id ≠ lead.id) with
    | some ex =>
      rw [hfind] at h
      have hm : m = ex := by
        simp only [List.mem_singleton, Prod.mk.injEq] at h
        exact h.1
      have hpred := List.find?_some hfind
      rw [hm]
      exact of_decide_eq_true ((Bool.and_eq_true _ _).mp hpred).2
    | none =>
      rw [hfind] at h
      rcases List.mem_append.mp h with h' | h'
      · exact (mem_phoneMatches_props h').1
      · exact mem_fuzzyMatches_ne h'
  · rw [if_neg hp] at h
    rcases List.mem_append.mp h with h' | h'
    · exact (mem_phoneMatches_props h').1
    · exact mem_fuzzyMatches_ne h'

/-- Closed instance of `find_duplicates_never_self` at a concrete exact-tier
match. -/
theorem find_duplicates_never_self_witness :
    ({ id := 2, business_name := "Y", place_id := some "PID" } : BusinessLead).id ≠
      ({ id := 1, business_name := "X", place_id := some "PID" } : BusinessLead).id :=
  find_duplicates_never_self dedupModel
    { id := 1, business_name := "X", place_id := some "PID" }
    [{ id := 2, business_name := "Y", place_id := some "PID" }]
    { id := 2, business_name := "Y", place_id := some "PID" }
    { match_type := "exact_place_id", confidence := 100 }
    (by decide)

/-- C1: when the lead has a truthy `place_id` shared with exactly one other
corpus record, `find_duplicates` returns exactly that one match, typed
`exact_place_id` at confidence 100, for every choice of similarity and
distance collaborator and regardless of every other field of either record;
no phone or fuzzy matches are included. -/
theorem find_duplicates_exact_tier (D : AdvancedDeduplicator) (lead m : BusinessLead)
    (corpus : List BusinessLead)
    (hpid : strTruthy lead.place_id = true)
    (huniq : corpus.filter (fun r => r.place_id == lead.place_id && r.id ≠ lead.id) = [m]) :
    find_duplicates D lead corpus =
      [(m, { match_type := "exact_place_id", confidence := 100 })] := by
  have hfind := find?_eq_of_filter_eq_singleton huniq
  unfold find_duplicates
  rw [if_pos hpid, hfind]

/-- Closed instance of `find_duplicates_exact_tier`: the corpus record shares
only the `place_id`; name and address differ completely. -/
theorem find_duplicates_exact_tier_witness :
    find_duplicates dedupModel
      { id := 1, business_name := "X", place_id := some "PID", phone := some "123" }
      [{ id := 2, business_name := "Completely Different", full_address := some "Elsewhere",
         place_id := some "PID" }] =
      [({ id := 2, business_name := "Completely Different", full_address := some "Elsewhere",
          place_id := some "PID" }, { match_type := "exact_place_id", confidence := 100 })] :=
  find_duplicates_exact_tier dedupModel _ _ _ (by decide) (by decide)

/-- Counterexample to C4 as stated: a primary field holding the non-null empty
string (falsy in Python) is overwritten by `_merge_leads`. -/
theorem merge_overwrites_nonnull_empty_field :
    (({ id := 1, business_name := "A", phone := some "" } : BusinessLead)).phone.isSome = true ∧
    (mergeLeads { id := 1, business_name := "A", phone := some "" }
        { id := 2, business_name := "B", phone := some "123" }).phone ≠
      ({ id := 1, business_name := "A", phone := some "" } : BusinessLead).phone := by
  decide

/-- C4 (amended): `_merge_leads` never changes a merged field of the primary
that was truthy (non-null and non-empty) before the merge; only falsy primary
fields can be filled from the duplicate. -/
theorem mergeLeads_preserves_truthy (p d : BusinessLead) :
    (strTruthy p.phone = true → (mergeLeads p d).phone = p.phone) ∧
    (strTruthy p.website = true → (mergeLeads p d).website = p.website) ∧
    (strTruthy p.email = true → (mergeLeads p d).email = p.email) ∧
    (strTruthy p.category = true → (mergeLeads p d).category = p.category) ∧
    (strTruthy p.social_facebook = true →
      (mergeLeads p d).social_facebook = p.social_facebook) ∧
    (strTruthy p.social_instagram = true →
      (mergeLeads p d).social_instagram = p.social_instagram) ∧
    (strTruthy p.social_twitter = true →
      (mergeLeads p d).social_twitter = p.social_twitter) ∧
    (strTruthy p.social_linkedin = true →
      (mergeLeads p d).social_linkedin = p.social_linkedin) ∧
    (strTruthy p.social_youtube = true →
      (mergeLeads p d).social_youtube = p.social_youtube) := by
  refine ⟨?_, ?_, ?_, ?_, ?_, ?_, ?_, ?_, ?_⟩ <;>
    (intro h; simp [mergeLeads, mergeField, h])

/-- Closed instance of `mergeLeads_preserves_truthy`: a primary with all nine
merge fields truthy keeps every one of them. -/
theorem mergeLeads_preserves_truthy_witness :
    (mergeLeads
        { id := 1, business_name := "A", phone := some "p", website := some "w",
          email := some "e", category := some "c", social_facebook := some "f",
          social_instagram := some "i", social_twitter := some "t",
          social_linkedin := some "l", social_youtube := some "y" }
        { id := 2, business_name := "B", phone := some "p2", website := some "w2",
          email := some "e2", category := some "c2", social_facebook := some "f2",
          social_instagram := some "i2", social_twitter := some "t2",
          social_linkedin := some "l2", social_youtube := some "y2" }).phone = some "p" :=
  (mergeLeads_preserves_truthy _ _).1 (by decide)

theorem normalizeChars_fixed (c : Char) (t : List Char)
    (hkeep : ∀ x ∈ c :: t, keepDigitPlus x = true)
    (hc0 : (c == '0') = false)
    (hstable : c = '+' ∨
      (c ≠ '+' ∧ (c :: t).length ≠ 10 ∧
        ¬((c :: t).length = 11 ∧ (c :: t).take 2 = ['9', '1']))) :
    normalizeChars (c :: t) = c :: t := by
  have hfilter : (c :: t).filter keepDigitPlus = c :: t := List.filter_eq_self.mpr hkeep
  have hdrop : (c :: t).dropWhile (fun x => x == '0') = c :: t := by
    rw [List.dropWhile_cons]
    simp [hc0]
  rw [normalizeChars, hfilter, hdrop, addCountryCode]
  rcases hstable with hp | ⟨hnp, h10, h11⟩
  · rw [if_neg (by simp [hp])]
  · rw [if_pos (by simp [hnp]), if_neg h10, if_neg h11]

theorem normalizeChars_idem (cs : List Char) (h : normalizeChars cs ≠ []) :
    normalizeChars (normalizeChars cs) = normalizeChars cs := by
  have hkeep2 : ∀ c ∈ (cs.filter keepDigitPlus).dropWhile (fun c => c == '0'),
      keepDigitPlus c = true := by
    intro c hc
    exact List.of_mem_filter (mem_of_mem_dropWhile hc)
  set cs2 := (cs.filter keepDigitPlus).dropWhile (fun c => c == '0') with hcs2
  have hdef : normalizeChars cs = addCountryCode cs2 := rfl
  rw [hdef] at h ⊢
  rw [addCountryCode] at h ⊢
  by_cases hplus : cs2.head? = some '+'
  · obtain ⟨t, ht⟩ : ∃ t, cs2 = '+' :: t := by
      cases hc : cs2 with
      | nil => rw [hc] at hplus; simp at hplus
      | cons a t =>
        rw [hc] at hplus
        simp only [List.head?_cons, Option.some.injEq] at hplus
        exact ⟨t, by rw [hplus]⟩
    rw [if_neg (by simp [hplus])] at h ⊢
    rw [ht]
    exact normalizeChars_fixed _ _ (ht ▸ hkeep2) (by decide) (Or.inl rfl)
  · rw [if_pos (by simp [hplus])] at h ⊢
    by_cases h10 : cs2.length = 10
    · rw [if_pos h10] at h ⊢
      refine normalizeChars_fixed _ _ ?_ (by decide) (Or.inl rfl)
      intro x hx
      simp only [List.mem_cons] at hx
      rcases hx with rfl | rfl | rfl | hx
      · decide
      · decide
      · decide
      · exact hkeep2 x hx
    · rw [if_neg h10] at h ⊢
      by_cases h11 : cs2.length = 11 ∧ cs2.take 2 = ['9', '1']
      · rw [if_pos h11] at h ⊢
        refine normalizeChars_fixed _ _ ?_ (by decide) (Or.inl rfl)
        intro x hx
        simp only [List.mem_cons] at hx
        rcases hx with rfl | hx
        · decide
        · exact hkeep2 x hx
      · rw [if_neg h11] at h ⊢
        obtain ⟨c, t, hct⟩ : ∃ c t, cs2 = c :: t := by
          cases hc : cs2 with
          | nil => exact absurd hc h
          | cons a t => exact ⟨a, t, rfl⟩
        have hdw : (cs.filter keepDigitPlus).dropWhile (fun z => z == '0') = c :: t := by
          rw [← hcs2]; exact hct
        have hc0 : (fun z => z == '0') c = false :=
          head_false_of_dropWhile_eq_cons (p := fun z => z == '0') hdw
        have hcplus : c ≠ '+' := by
          intro hcp
          rw [hct, hcp] at hplus
          simp at hplus
        rw [hct]
        refine normalizeChars_fixed _ _ (hct ▸ hkeep2) hc0 (Or.inr ⟨hcplus, ?_, ?_⟩)
        · rw [← hct]; exact h10
        · rw [← hct]; exact h11

/-- Counterexample to C5 as stated: an input consisting only of zeros
normalizes to the empty string, whose own normalization is `None`, so
`normalize_phone` is not idempotent on all inputs. -/
theorem normalize_phone_zero_not_idempotent :
    normalize_phone (some "0") = some "" ∧
    normalize_phone (normalize_phone (some "0")) = none ∧
    normalize_phone (normalize_phone (some "0")) ≠ normalize_phone (some "0") := by
  decide

/-- C5 (amended): `normalize_phone` is idempotent on every input whose
normalization is not the empty string (`None` and all inputs containing at
least one nonzero digit or a `+` included); and the two sample numbers
normalize identically. -/
theorem normalize_phone_idempotent_unless_empty :
    (∀ p : Option String, normalize_phone p ≠ some "" →
      normalize_phone (normalize_phone p) = normalize_phone p) ∧
    normalize_phone (some "9876543210") = normalize_phone (some "+919876543210") := by
  constructor
  · intro p hp
    match p with
    | none => rfl
    | some s =>
      by_cases hs : s.data.isEmpty = true
      · simp [normalize_phone, hs]
      · have hcs : normalizeChars s.data ≠ [] := by
          intro hnil
          apply hp
          simp [normalize_phone, hs, hnil]
        have hout : normalize_phone (some s) = some (String.mk (normalizeChars s.data)) := by
          simp [normalize_phone, hs]
        rw [hout]
        have hdata : (String.mk (normalizeChars s.data)).data = normalizeChars s.data := rfl
        have hne : (String.mk (normalizeChars s.data)).data.isEmpty = false := by
          rw [hdata]
          cases hc : normalizeChars s.data with
          | nil => exact absurd hc hcs
          | cons a t => rfl
        simp only [normalize_phone, hne, Bool.false_eq_true, if_false, hdata,
          normalizeChars_idem s.data hcs]
  · decide

/-- Closed instance of `normalize_phone_idempotent_unless_empty` at a concrete
phone number. -/
theorem normalize_phone_idem_witness :
    normalize_phone (normalize_phone (some "12345")) = normalize_phone (some "12345") :=
  normalize_phone_idempotent_unless_empty.1 (some "12345") (by decide)

/-- C9: `get_next_proxy` is not total as specified — after a successful
rotation step advances the index to 1, `mark_proxy_failed` shrinks the working
list to a single proxy and the next `get_next_proxy` call reads index 1 of a
length-1 list, the out-of-range access (`IndexError`, modelled `none`) the
spec says cannot happen. -/
theorem get_next_proxy_index_error :
    get_next_proxy
        { working_proxies := [⟨"http://1.1.1.1:80", "1.1.1.1", "proxyscrape"⟩,
                              ⟨"http://2.2.2.2:80", "2.2.2.2", "github"⟩],
          failed_proxies := [], current_proxy_index := 0 } =
      some (some ⟨"http://1.1.1.1:80", "1.1.1.1", "proxyscrape"⟩,
        { working_proxies := [⟨"http://1.1.1.1:80", "1.1.1.1", "proxyscrape"⟩,
                              ⟨"http://2.2.2.2:80", "2.2.2.2", "github"⟩],
          failed_proxies := [], current_proxy_index := 1 }) ∧
    mark_proxy_failed
        { working_proxies := [⟨"http://1.1.1.1:80", "1.1.1.1", "proxyscrape"⟩,
                              ⟨"http://2.2.2.2:80", "2.2.2.2", "github"⟩],
          failed_proxies := [], current_proxy_index := 1 }
        ⟨"http://2.2.2.2:80", "2.2.2.2", "github"⟩ =
      { working_proxies := [⟨"http://1.1.1.1:80", "1.1.1.1", "proxyscrape"⟩],
        failed_proxies := ["http://2.2.2.2:80"], current_proxy_index := 1 } ∧
    get_next_proxy
        { working_proxies := [⟨"http://1.1.1.1:80", "1.1.1.1", "proxyscrape"⟩],
          failed_proxies := ["http://2.2.2.2:80"], current_proxy_index := 1 } = none := by
  decide

/-- Counterexample to C8 as stated: the second listing is a tier-2 duplicate
of the first (their normalized phones agree, `phoneMatches` is nonempty) but
the crawl loop persists it anyway and counts both, because
`_save_to_database` checks only `place_id`. -/
theorem scrape_persists_phone_duplicate :
    ((scrapeLoop 5
        [some { business_name := "A", place_id := some "P1", phone := some "9876543210" },
         some { business_name := "B", place_id := some "P2", phone := some "+919876543210" }]
        [] 0 0).2 = 2) ∧
    phoneMatches
        (leadOfData 2
          { business_name := "B", place_id := some "P2", phone := some "+919876543210" })
        [leadOfData 1
          { business_name := "A", place_id := some "P1", phone := some "9876543210" }] ≠
      [] := by
  decide

/-- C8 (amended): the crawl loop persists an extracted record iff it is not an
exact `place_id` duplicate of an already-stored record (tier-2 phone
duplicates are not checked at save time); in particular the second of two
listings with the same truthy `place_id` is detected, not persisted, and the
scraped count reflects only the first. -/
theorem save_gate_place_id_only (db : List BusinessLead) (d d1 d2 : ExtractedData) :
    ((save_to_database db d).1 = false ↔
      strTruthy d.place_id = true ∧ ∃ r ∈ db, r.place_id = d.place_id) ∧
    (strTruthy d1.place_id = true → d2.place_id = d1.place_id →
      (scrapeLoop 5 [some d1, some d2] [] 0 0).2 = 1) := by
  constructor
  · constructor
    · intro hf
      by_cases hc : (strTruthy d.place_id &&
          (db.find? fun r => r.place_id == d.place_id).isSome) = true
      · obtain ⟨h1, h2⟩ := (Bool.and_eq_true _ _).mp hc
        refine ⟨h1, ?_⟩
        obtain ⟨r, hr, hpr⟩ := List.find?_isSome.mp h2
        exact ⟨r, hr, by simpa using hpr⟩
      · exfalso
        simp [save_to_database, hc] at hf
    · rintro ⟨h1, r, hr, hpr⟩
      have hsome : (db.find? fun r => r.place_id == d.place_id).isSome :=
        List.find?_isSome.mpr ⟨r, hr, by simpa using hpr⟩
      simp [save_to_database, h1, hsome]
  · intro h1 h2
    have hl : (leadOfData 1 d1).place_id = d1.place_id := rfl
    have hstep1 : save_to_database [] d1 = (true, [leadOfData 1 d1]) := by
      simp [save_to_database]
    have hfind : ([leadOfData 1 d1].find? fun r => r.place_id == d2.place_id) =
        some (leadOfData 1 d1) := by
      apply List.find?_cons_of_pos
      rw [hl, h2]
      exact beq_self_eq_true _
    have hstep2 : save_to_database [leadOfData 1 d1] d2 = (false, [leadOfData 1 d1]) := by
      simp [save_to_database, hfind, h2, h1, hl]
    simp [scrapeLoop, hstep1, hstep2]

/-- Closed instance of `save_gate_place_id_only`: two listings sharing a
`place_id` yield one persisted record. -/
theorem save_gate_place_id_only_witness :
    (scrapeLoop 5
      [some { business_name := "A", place_id := some "PID", full_address := some "addr one" },
       some { business_name := "A2", place_id := some "PID", full_address := some "addr two" }]
      [] 0 0).2 = 1 :=
  (save_gate_place_id_only []
      { business_name := "A", place_id := some "PID", full_address := some "addr one" }
      { business_name := "A", place_id := some "PID", full_address := some "addr one" }
      { business_name := "A2", place_id := some "PID", full_address := some "addr two" }).2
    (by decide) (by decide)

/-- Counterexample to C3 as stated: the lead has no exact-identity match and a
tier-2 phone match, yet the result also contains a tier-3 fuzzy match — the
phone tier does not short-circuit. -/
theorem phone_tier_does_not_short_circuit :
    find_duplicates dedupModel
      { id := 1, business_name := "Acme Bakery", city := some "Pune",
        phone := some "+919876543210" }
      [{ id := 2, business_name := "Acme Bakery", city := some "Pune",
         phone := some "9876543210" }] =
    [({ id := 2, business_name := "Acme Bakery", city := some "Pune",
        phone := some "9876543210" },
      { match_type := "phone_number", confidence := 95 }),
     ({ id := 2, business_name := "Acme Bakery", city := some "Pune",
        phone := some "9876543210" },
      { match_type := "fuzzy_name", confidence := 100, name_similarity := some 100,
        address_similarity := some 0, distance_meters := none })] ∧
    ¬(∀ x ∈ find_duplicates dedupModel
        { id := 1, business_name := "Acme Bakery", city := some "Pune",
          phone := some "+919876543210" }
        [{ id := 2, business_name := "Acme Bakery", city := some "Pune",
           phone := some "9876543210" }],
        (Prod.snd x).match_type = "phone_number") := by
  decide

/-- C3 (amended): only tier 1 short-circuits.  When the exact tier yields no
match, the result is exactly the tier-2 phone matches — each reported with
type `phone_number` at confidence 95 — followed by the tier-3 fuzzy matches,
which are still computed and appended. -/
theorem find_duplicates_tiers_append (D : AdvancedDeduplicator) (lead : BusinessLead)
    (corpus : List BusinessLead)
    (hexact : strTruthy lead.place_id = false ∨
      corpus.find? (fun r => r.place_id == lead.place_id && r.id ≠ lead.id) = none) :
    find_duplicates D lead corpus = phoneMatches lead corpus ++ fuzzyMatches D lead corpus ∧
    ∀ x ∈ phoneMatches lead corpus,
      Prod.snd x = { match_type := "phone_number", confidence := 95 } := by
  constructor
  · unfold find_duplicates
    rcases hexact with hf | hf
    · rw [if_neg (by simp [hf])]
    · by_cases hp : strTruthy lead.place_id = true
      · rw [if_pos hp, hf]
      · rw [if_neg hp]
  · intro x hx
    obtain ⟨m, i⟩ := x
    exact (mem_phoneMatches_props hx).2

/-- Closed instance of `find_duplicates_tiers_append` at a lead without a
stable identity. -/
theorem find_duplicates_tiers_append_witness :
    find_duplicates dedupModel
      { id := 1, business_name := "Corner Shop", city := some "Pune",
        phone := some "+919876500000" }
      [{ id := 2, business_name := "Corner Shop", city := some "Pune",
         phone := some "9876500000" }] =
      phoneMatches
        { id := 1, business_name := "Corner Shop", city := some "Pune",
          phone := some "+919876500000" }
        [{ id := 2, business_name := "Corner Shop", city := some "Pune",
           phone := some "9876500000" }] ++
      fuzzyMatches dedupModel
        { id := 1, business_name := "Corner Shop", city := some "Pune",
          phone := some "+919876500000" }
        [{ id := 2, business_name := "Corner Shop", city := some "Pune",
           phone := some "9876500000" }] :=
  (find_duplicates_tiers_append dedupModel _ _ (Or.inl (by decide))).1

/-! Behaviour of the retry loop. -/

theorem retryGo_cb_irrel {α ε : Type} (op : Nat → AttemptResult α ε)
    (cb cb' : ε → Nat → Bool) (base : Rat) (expb : Bool) :
    ∀ (remaining attempt invocs : Nat) (delays : List Rat),
      retryGo op cb base expb remaining attempt invocs delays =
      retryGo op cb' base expb remaining attempt invocs delays := by
  intro remaining
  induction remaining with
  | zero =>
    intro attempt invocs delays
    cases h : op attempt <;> simp [retryGo, h]
  | succ r ih =>
    intro attempt invocs delays
    cases h : op attempt with
    | ok v => simp [retryGo, h]
    | fatal e => simp [retryGo, h]
    | nonfatal e =>
      simp only [retryGo, h]
      exact ih _ _ _

theorem retryGo_all_nonfatal {α ε : Type} (op : Nat → AttemptResult α ε) (E : Nat → ε)
    (cb : ε → Nat → Bool) (base : Rat) (expb : Bool) :
    ∀ (remaining attempt invocs : Nat) (delays : List Rat),
      (∀ i, attempt ≤ i → i ≤ attempt + remaining → op i = .nonfatal (E i)) →
      retryGo op cb base expb remaining attempt invocs delays =
        ⟨.error (E (attempt + remaining)), invocs + remaining + 1,
         delays ++ (List.range' attempt remaining).map
           (fun i => if expb then base * 2 ^ i else base)⟩ := by
  intro remaining
  induction remaining with
  | zero =>
    intro attempt invocs delays h
    have ha := h attempt le_rfl (by omega)
    simp [retryGo, ha]
  | succ r ih =>
    intro attempt invocs delays h
    have ha := h attempt le_rfl (by omega)
    simp only [retryGo, ha]
    rw [ih (attempt + 1) (invocs + 1) _ (fun i h1 h2 => h i (by omega) (by omega))]
    rw [show attempt + 1 + r = attempt + (r + 1) from by omega]
    rw [show invocs + 1 + r + 1 = invocs + (r + 1) + 1 from by omega]
    rw [List.range'_succ]
    simp [List.append_assoc]

theorem retryGo_first_fatal {α ε : Type} (op : Nat → AttemptResult α ε) (E : Nat → ε)
    (e : ε) (cb : ε → Nat → Bool) (base : Rat) (expb : Bool) :
    ∀ (k remaining attempt invocs : Nat) (delays : List Rat),
      k ≤ remaining →
      (∀ i, attempt ≤ i → i < attempt + k → op i = .nonfatal (E i)) →
      op (attempt + k) = .fatal e →
      retryGo op cb base expb remaining attempt invocs delays =
        ⟨.error e, invocs + k + 1,
         delays ++ (List.range' attempt k).map
           (fun i => if expb then base * 2 ^ i else base)⟩ := by
  intro k
  induction k with
  | zero =>
    intro remaining attempt invocs delays _ _ hf
    rw [Nat.add_zero] at hf
    cases remaining <;> simp [retryGo, hf]
  | succ kk ih =>
    intro remaining attempt invocs delays hk hnf hf
    have ha : op attempt = .nonfatal (E attempt) := hnf attempt le_rfl (by omega)
    obtain ⟨r, rfl⟩ : ∃ r, remaining = r + 1 := ⟨remaining - 1, by omega⟩
    simp only [retryGo, ha]
    rw [ih r (attempt + 1) (invocs + 1) _ (by omega)
      (fun i h1 h2 => hnf i (by omega) (by omega))
      (by rw [show attempt + 1 + kk = attempt + (kk + 1) from by omega]; exact hf)]
    rw [show invocs + 1 + kk + 1 = invocs + (kk + 1) + 1 from by omega]
    rw [List.range'_succ]
    simp [List.append_assoc]

/-- C7: `retry_async` invokes the operation; when every invocation fails
non-fatally it performs exactly `max_retries` additional invocations, sleeping
`base_delay * 2 ^ attempt` before retry `attempt` (or the constant
`base_delay` when exponential backoff is disabled), and raises the last error;
when invocation `k` fails with `FatalError` after `k` non-fatal failures, the
fatal error propagates at once with exactly `k + 1` invocations and no further
retry; and the run's observable trace is independent of the per-attempt error
callback, whose failures are swallowed. -/
theorem retry_async_spec {α ε : Type} (op : Nat → AttemptResult α ε)
    (cb cb' : ε → Nat → Bool) (E : Nat → ε) (e : ε) (max_retries k : Nat)
    (base_delay : Rat) (expb : Bool) :
    ((∀ i, i ≤ max_retries → op i = .nonfatal (E i)) →
      retry_async op cb max_retries base_delay expb =
        ⟨.error (E max_retries), max_retries + 1,
         (List.range max_retries).map
           (fun i => if expb then base_delay * 2 ^ i else base_delay)⟩) ∧
    (k ≤ max_retries → (∀ i, i < k → op i = .nonfatal (E i)) → op k = .fatal e →
      retry_async op cb max_retries base_delay expb =
        ⟨.error e, k + 1,
         (List.range k).map
           (fun i => if expb then base_delay * 2 ^ i else base_delay)⟩) ∧
    retry_async op cb max_retries base_delay expb =
      retry_async op cb' max_retries base_delay expb := by
  refine ⟨?_, ?_, ?_⟩
  · intro h
    unfold retry_async
    rw [retryGo_all_nonfatal op E cb base_delay expb max_retries 0 0 []
      (fun i h1 h2 => h i (by omega))]
    simp [List.range_eq_range']
  · intro hk hnf hf
    unfold retry_async
    rw [retryGo_first_fatal op E e cb base_delay expb k max_retries 0 0 [] hk
      (fun i _ h2 => hnf i (by omega)) (by simpa using hf)]
    simp [List.range_eq_range']
  · exact retryGo_cb_irrel op cb cb' base_delay expb max_retries 0 0 []

/-- Closed instance of `retry_async_spec`: three all-non-fatal attempts with
exponential backoff produce two sleeps of 5 s and 10 s and raise the last
error. -/
theorem retry_async_spec_witness :
    retry_async (fun i => (AttemptResult.nonfatal i : AttemptResult Nat Nat))
      (fun _ _ => true) 2 5 true = ⟨.error 2, 3, [5, 10]⟩ := by
  have h := (retry_async_spec (fun i => (AttemptResult.nonfatal i : AttemptResult Nat Nat))
      (fun _ _ => true) (fun _ _ => false) (fun i => i) 0 2 0 5 true).1 (fun i _ => rfl)
  rw [h]
  norm_num [List.range_succ]

/-! The rate-limiter sliding-window invariant. -/

theorem evictOld_eq_filter (cutoff : Int) :
    ∀ (l : List Int), l.Pairwise (· ≤ ·) →
      evictOld cutoff l = l.filter (fun x => decide (cutoff ≤ x)) := by
  intro l
  induction l with
  | nil => intro _; simp [evictOld]
  | cons x xs ih =>
    intro hp
    rw [List.pairwise_cons] at hp
    by_cases hx : x < cutoff
    · have hd : decide (cutoff ≤ x) = false := by simp; omega
      simp [evictOld, hx, hd, ih hp.2]
    · have hd : decide (cutoff ≤ x) = true := by simp; omega
      have hall : xs.filter (fun y => decide (cutoff ≤ y)) = xs :=
        List.filter_eq_self.mpr (fun y hy => by have := hp.1 y hy; simp; omega)
      simp [evictOld, hx, hd, hall]

theorem filter_filter_imp {α : Type} (p q : α → Bool) (l : List α)
    (h : ∀ x, q x = true → p x = true) :
    (l.filter p).filter q = l.filter q := by
  induction l with
  | nil => rfl
  | cons x xs ih =>
    by_cases hq : q x = true
    · have hp := h x hq
      simp [List.filter_cons, hp, hq, ih]
    · by_cases hp : p x = true
      · simp [List.filter_cons, hp, hq, ih]
      · simp [List.filter_cons, hp, hq, ih]

theorem windowCount_nil (w len : Int) : windowCount [] w len = 0 := rfl

theorem windowCount_cons (x : Int) (xs : List Int) (w len : Int) :
    windowCount (x :: xs) w len =
      (if w < x ∧ x ≤ w + len then 1 else 0) + windowCount xs w len := by
  by_cases h1 : w < x <;> by_cases h2 : x ≤ w + len <;>
    (simp [windowCount, List.filter_cons, h1, h2]; try omega)

theorem windowCount_append_one (log : List Int) (a w len : Int) :
    windowCount (log ++ [a]) w len =
      windowCount log w len + (if w < a ∧ a ≤ w + len then 1 else 0) := by
  by_cases h1 : w < a <;> by_cases h2 : a ≤ w + len <;>
    simp [windowCount, List.filter_append, h1, h2]

theorem hourlyWaitTarget_nil (cfg : RateLimiter) (t : Int) :
    hourlyWaitTarget cfg [] t =
      if ([] : List Int).length ≥ cfg.max_requests_per_hour then t else t := rfl

theorem hourlyWaitTarget_cons (cfg : RateLimiter) (o : Int) (rest : List Int) (t : Int) :
    hourlyWaitTarget cfg (o :: rest) t =
      if (o :: rest).length ≥ cfg.max_requests_per_hour then
        (if o + 3600 - t > 0 then o + 3600 else t)
      else t := rfl

theorem le_hourlyWaitTarget (cfg : RateLimiter) (h1 : List Int) (t : Int) :
    t ≤ hourlyWaitTarget cfg h1 t := by
  cases h1 with
  | nil => rw [hourlyWaitTarget_nil]; split_ifs <;> omega
  | cons o rest => rw [hourlyWaitTarget_cons]; split_ifs <;> omega

theorem hourlyWaitTarget_over (cfg : RateLimiter) (o : Int) (rest : List Int) (t : Int)
    (hcap : cfg.max_requests_per_hour ≤ (o :: rest).length) :
    o + 3600 ≤ hourlyWaitTarget cfg (o :: rest) t := by
  rw [hourlyWaitTarget_cons, if_pos hcap]
  split_ifs <;> omega

theorem le_minuteWaitTarget (cfg : RateLimiter) (h1 : List Int) (t1 : Int) :
    t1 ≤ minuteWaitTarget cfg h1 t1 := by
  unfold minuteWaitTarget
  split_ifs <;> omega

theorem minuteWaitTarget_over (cfg : RateLimiter) (h1 : List Int) (t1 : Int)
    (h : cfg.max_requests_per_minute ≤ (h1.filter fun x => decide (x > t1 - 60)).length) :
    t1 + 60 ≤ minuteWaitTarget cfg h1 t1 := by
  unfold minuteWaitTarget
  rw [if_pos h]

theorem wait_if_needed_preserves (cfg : RateLimiter) (log : List Int) (c t extra : Int)
    (hcap1 : 1 ≤ cfg.max_requests_per_hour)
    (hcap2 : 1 ≤ cfg.max_requests_per_minute)
    (hsorted : log.Pairwise (· ≤ ·))
    (hlt : ∀ x ∈ log, x + 1 ≤ t)
    (hc : c + 3600 ≤ t)
    (hhour : ∀ w, windowCount log w 3600 ≤ cfg.max_requests_per_hour)
    (hminute : ∀ w, windowCount log w 60 ≤ cfg.max_requests_per_minute)
    (hextra : 0 ≤ extra) :
    ∃ rec, wait_if_needed cfg (log.filter fun x => decide (c ≤ x)) t extra =
        ⟨(log ++ [rec]).filter (fun x => decide (t - 3600 ≤ x)), rec⟩ ∧
      t ≤ rec ∧
      (∀ w, windowCount (log ++ [rec]) w 3600 ≤ cfg.max_requests_per_hour) ∧
      (∀ w, windowCount (log ++ [rec]) w 60 ≤ cfg.max_requests_per_minute) := by
  have hevict : evictOld (t - 3600) (log.filter fun x => decide (c ≤ x)) =
      log.filter (fun x => decide (t - 3600 ≤ x)) := by
    rw [evictOld_eq_filter _ _ (List.Pairwise.filter _ hsorted)]
    exact filter_filter_imp _ _ _ (fun x hx => by simp at hx ⊢; omega)
  set h1 := log.filter (fun x => decide (t - 3600 ≤ x)) with hh1
  set t1 := hourlyWaitTarget cfg h1 t with ht1def
  set rec := minuteWaitTarget cfg h1 t1 + extra with hrecdef
  have htt1 : t ≤ t1 := le_hourlyWaitTarget cfg h1 t
  have ht1rec : t1 ≤ rec := by
    have := le_minuteWaitTarget cfg h1 t1
    omega
  have htrec : t ≤ rec := le_trans htt1 ht1rec
  -- the evicted history is bounded by a closed hour window, hence by the cap
  have hh1len : h1.length ≤ cfg.max_requests_per_hour := by
    have hle : h1.length ≤ windowCount log (t - 3601) 3600 := by
      apply length_filter_le_filter
      intro x hx hpx
      have hxt := hlt x hx
      simp at hpx ⊢
      omega
    exact le_trans hle (hhour _)
  -- count of log entries inside the open hour window ending at rec
  have hhourKey : (log.filter fun x => decide (rec - 3600 < x)).length + 1 ≤
      cfg.max_requests_per_hour := by
    have heqf : (log.filter fun x => decide (rec - 3600 < x)) =
        h1.filter (fun x => decide (rec - 3600 < x)) :=
      (filter_filter_imp _ _ _ (fun x hx => by simp at hx ⊢; omega)).symm
    by_cases hov : cfg.max_requests_per_hour ≤ h1.length
    · obtain ⟨o, rest, hor⟩ : ∃ o rest, h1 = o :: rest := by
        cases hh : h1 with
        | nil => rw [hh] at hov; simp at hov; omega
        | cons a r => exact ⟨a, r, rfl⟩
      have ho : o + 3600 ≤ t1 := by
        rw [ht1def, hor]
        exact hourlyWaitTarget_over cfg o rest t (by rw [← hor]; exact hov)
      have horec : o + 3600 ≤ rec := le_trans ho ht1rec
      have hcnt : (h1.filter fun x => decide (rec - 3600 < x)).length ≤ rest.length := by
        rw [hor, List.filter_cons_of_neg (by simp; omega)]
        exact List.length_filter_le _ _
      have hrest : rest.length + 1 = h1.length := by rw [hor]; rfl
      rw [heqf]
      omega
    · have hcnt : (h1.filter fun x => decide (rec - 3600 < x)).length ≤ h1.length :=
        List.length_filter_le _ _
      rw [heqf]
      omega
  -- count of log entries inside the open minute window ending at rec
  have hminKey : (log.filter fun x => decide (rec - 60 < x)).length + 1 ≤
      cfg.max_requests_per_minute := by
    have heqf : (log.filter fun x => decide (rec - 60 < x)) =
        h1.filter (fun x => decide (rec - 60 < x)) :=
      (filter_filter_imp _ _ _ (fun x hx => by simp at hx ⊢; omega)).symm
    by_cases hov : cfg.max_requests_per_minute ≤
        (h1.filter fun x => decide (x > t1 - 60)).length
    · have h60 : t1 + 60 ≤ rec := by
        have := minuteWaitTarget_over cfg h1 t1 hov
        omega
      have hnone : (log.filter fun x => decide (rec - 60 < x)) = [] := by
        apply List.filter_eq_nil_iff.mpr
        intro x hx
        have := hlt x hx
        simp
        omega
      rw [hnone]
      simp
      omega
    · have hsub : (h1.filter fun x => decide (rec - 60 < x)).length ≤
          (h1.filter fun x => decide (x > t1 - 60)).length := by
        apply length_filter_le_filter
        intro x _ hpx
        simp at hpx ⊢
        omega
      rw [heqf]
      omega
  refine ⟨rec, ?_, htrec, ?_, ?_⟩
  · unfold wait_if_needed
    rw [hevict]
    rw [List.filter_append]
    have : ([rec].filter fun x => decide (t - 3600 ≤ x)) = [rec] := by
      simp
      omega
    rw [this]
  · intro w
    rw [windowCount_append_one]
    by_cases hin : w < rec ∧ rec ≤ w + 3600
    · rw [if_pos hin]
      have hwle : windowCount log w 3600 ≤
          (log.filter fun x => decide (rec - 3600 < x)).length := by
        apply length_filter_le_filter
        intro x _ hpx
        simp at hpx ⊢
        omega
      omega
    · rw [if_neg hin]
      simpa using hhour w
  · intro w
    rw [windowCount_append_one]
    by_cases hin : w < rec ∧ rec ≤ w + 60
    · rw [if_pos hin]
      have hwle : windowCount log w 60 ≤
          (log.filter fun x => decide (rec - 60 < x)).length := by
        apply length_filter_le_filter
        intro x _ hpx
        simp at hpx ⊢
        omega
      omega
    · rw [if_neg hin]
      simpa using hminute w

theorem rlStep_inv (cfg : RateLimiter) (s : RLRun) (g extra : Int)
    (hcap1 : 1 ≤ cfg.max_requests_per_hour)
    (hcap2 : 1 ≤ cfg.max_requests_per_minute)
    (hgap : 1 ≤ g) (hextra : 0 ≤ extra) (h : RLInv cfg s) :
    RLInv cfg (rlStep cfg s (g, extra)) := by
  obtain ⟨c, hc, hhist⟩ := h.deq
  have hlt : ∀ x ∈ s.log, x + 1 ≤ s.now + g := fun x hx => by
    have := h.le_now x hx
    omega
  have hcle : c + 3600 ≤ s.now + g := by omega
  obtain ⟨rec, heq, hrec, hhour', hmin'⟩ :=
    wait_if_needed_preserves cfg s.log c (s.now + g) extra hcap1 hcap2 h.sorted hlt hcle
      h.hourly h.minutely hextra
  have hstep : rlStep cfg s (g, extra) =
      ⟨(s.log ++ [rec]).filter (fun x => decide (s.now + g - 3600 ≤ x)),
       s.log ++ [rec], rec⟩ := by
    show RLRun.mk
        (wait_if_needed cfg s.requests_history (s.now + g) extra).requests_history
        (s.log ++ [(wait_if_needed cfg s.requests_history (s.now + g) extra).recordedAt])
        (wait_if_needed cfg s.requests_history (s.now + g) extra).recordedAt = _
    rw [hhist, heq]
  rw [hstep]
  have hlerec : ∀ x ∈ s.log, x ≤ rec := fun x hx => by
    have := hlt x hx
    omega
  refine ⟨?_, ?_, ?_, hhour', hmin'⟩
  · rw [List.pairwise_append]
    refine ⟨h.sorted, by simp, ?_⟩
    intro x hx y hy
    rw [List.mem_singleton] at hy
    rw [hy]
    exact hlerec x hx
  · intro x hx
    rcases List.mem_append.mp hx with hx | hx
    · exact hlerec x hx
    · rw [List.mem_singleton] at hx
      rw [hx]
  · exact ⟨s.now + g - 3600, by dsimp only; omega, rfl⟩

theorem rlRun_go_inv (cfg : RateLimiter)
    (hcap1 : 1 ≤ cfg.max_requests_per_hour)
    (hcap2 : 1 ≤ cfg.max_requests_per_minute) :
    ∀ (steps : List (Int × Int)) (s : RLRun),
      (∀ p ∈ steps, 1 ≤ p.1 ∧ 0 ≤ p.2) → RLInv cfg s →
      RLInv cfg (steps.foldl (rlStep cfg) s) := by
  intro steps
  induction steps with
  | nil => intro s _ hs; exact hs
  | cons p rest ih =>
    intro s hp hs
    obtain ⟨g, extra⟩ := p
    have hp1 := hp (g, extra) (by simp)
    exact ih _ (fun q hq => hp q (by simp [hq]))
      (rlStep_inv cfg s g extra hcap1 hcap2 hp1.1 hp1.2 hs)

theorem rlRun_inv (cfg : RateLimiter) (t0 : Int) (steps : List (Int × Int))
    (hcap1 : 1 ≤ cfg.max_requests_per_hour)
    (hcap2 : 1 ≤ cfg.max_requests_per_minute)
    (hsteps : ∀ p ∈ steps, 1 ≤ p.1 ∧ 0 ≤ p.2) :
    RLInv cfg (rlRun cfg t0 steps) := by
  apply rlRun_go_inv cfg hcap1 hcap2 steps _ hsteps
  exact ⟨by simp, by simp, ⟨t0 - 3599, by dsimp only; omega, by simp⟩,
    fun w => by simp [windowCount], fun w => by simp [windowCount]⟩

/-- C2: along every run of `wait_if_needed` calls on a strictly advancing
integer clock (at least one tick elapses between a recorded request and the
next call), with positive configured caps, no sliding one-hour window of the
recorded timestamps ever holds more than `max_requests_per_hour` of them and
no sliding one-minute window more than `max_requests_per_minute`; in
particular with hourly cap 2 the third of three sequential calls records its
request only once at least one hour has elapsed since the first call's
recorded timestamp. -/
theorem rate_limiter_window_caps (cfg : RateLimiter) (t0 : Int)
    (steps : List (Int × Int))
    (hcap1 : 1 ≤ cfg.max_requests_per_hour)
    (hcap2 : 1 ≤ cfg.max_requests_per_minute)
    (hsteps : ∀ p ∈ steps, 1 ≤ p.1 ∧ 0 ≤ p.2) :
    (∀ w, windowCount (rlRun cfg t0 steps).log w 3600 ≤ cfg.max_requests_per_hour ∧
          windowCount (rlRun cfg t0 steps).log w 60 ≤ cfg.max_requests_per_minute) ∧
    (cfg.max_requests_per_hour = 2 → ∀ r1 r2 r3,
      (rlRun cfg t0 steps).log = [r1, r2, r3] → r1 + 3600 ≤ r3) := by
  have hinv := rlRun_inv cfg t0 steps hcap1 hcap2 hsteps
  refine ⟨fun w => ⟨hinv.hourly w, hinv.minutely w⟩, ?_⟩
  intro hcap r1 r2 r3 hlog
  have hs := hinv.sorted
  have hw := hinv.hourly (r1 - 1)
  rw [hlog] at hs hw
  rw [hcap] at hw
  rw [windowCount_cons, windowCount_cons, windowCount_cons, windowCount_nil] at hw
  simp only [List.pairwise_cons, List.mem_cons, List.mem_singleton] at hs
  have h12 : r1 ≤ r2 := hs.1 r2 (Or.inl rfl)
  have h23 : r2 ≤ r3 := hs.2.1 r3 (Or.inl rfl)
  by_contra hlt
  push_neg at hlt
  split_ifs at hw <;> omega

/-- Closed instance of `rate_limiter_window_caps`: with hourly cap 2 and three
back-to-back calls one tick apart starting at clock 0 the recorded log is
`[1, 2, 3601]`, every hour window holds at most 2 requests, and the third
request is recorded a full hour after the first. -/
theorem rate_limiter_window_caps_witness :
    windowCount (rlRun ⟨2, 20⟩ 0 [(1, 0), (1, 0), (1, 0)]).log 0 3600 ≤ 2 ∧
    (1 : Int) + 3600 ≤ 3601 :=
  ⟨((rate_limiter_window_caps ⟨2, 20⟩ 0 [(1, 0), (1, 0), (1, 0)] (by decide) (by decide)
      (by decide)).1 0).1,
   (rate_limiter_window_caps ⟨2, 20⟩ 0 [(1, 0), (1, 0), (1, 0)] (by decide) (by decide)
      (by decide)).2 rfl 1 2 3601 (by decide)⟩

end Scraper
